import Mathlib

/-!
Shallow embedding of the `bran` fiber runtime (src/fiber.rs, src/stack.rs).

A thread's `Environment` holds a list of fibers (identified by their index of
allocation), the chain of active fibers (`coroutine_stack` in the source; the
source uses a `Vec` pushed/popped at its end, we mirror it with a `List` whose
HEAD is the top of the chain, so `Vec::push` is `cons`, `Vec::pop` removes the
head, and `Vec::last` is `head?`; the bottom of the chain is the list's last
element), and the `running_state` slot carrying a panic payload across a
suspension.

Control transfers (`Context::swap`) are modelled at the granularity of the
state mutations they delimit: `resumeEnter` is the part of `Handle::resume`
up to and including the swap, `resumeFinish` is its continuation after the
swap returns (which runs, in the single-threaded source, exactly when the
resumed fiber yields back), and `Fiber.yield_now` is the mutation performed
by `Fiber::yield_now` itself.
-/

namespace Bran

/-- The panic payload (`Box<Any + Send>` in the source) is opaque to the
runtime; we model it by a string. -/
abbrev Payload := String

/-- `enum State` from src/fiber.rs. -/
inductive State where
  /-- Waiting its child to return -/
  | Normal
  /-- Suspended. Can be waked up by `resume` -/
  | Suspended
  /-- Blocked. Can be waked up by `resume` -/
  | Blocked
  /-- Running -/
  | Running
  /-- Finished -/
  | Finished
  /-- Panic happened inside, cannot be resumed again -/
  | Panicked
deriving DecidableEq, Repr

/-- The observable fields of `struct Fiber`: its lifecycle state and optional
name.  The stack segment and the saved register context are machine-level
resources with no logical content at this granularity. -/
structure FiberRec where
  state : State
  name : Option String
deriving DecidableEq, Repr

/-- `struct Environment` (one per thread): fibers are stored by allocation
index, `chain` is `coroutine_stack` with the top at the head, `runningState`
is `running_state`. -/
structure Env where
  fibers : List FiberRec
  chain : List Nat
  runningState : Option Payload
deriving Repr

/-- The name `Environment::new` gives the synthetic root fiber. -/
def envRootName : String := "<Environment Root Fiber>"

/-- `Environment::new`: a root fiber (no stack, state `Running`) is created
and pushed onto the chain. -/
def Environment.new : Env :=
  { fibers := [{ state := State.Running, name := some envRootName }],
    chain := [0],
    runningState := none }

/-- State of fiber `i`, `none` if no fiber with that index was allocated
(unreachable through the API: a `Handle` always references a live fiber). -/
def stateOf (e : Env) (i : Nat) : Option State :=
  e.fibers[i]?.map FiberRec.state

/-- The name of fiber `i`. -/
def nameOf (e : Env) (i : Nat) : Option (Option String) :=
  e.fibers[i]?.map FiberRec.name

/-- `Fiber::set_state` on fiber `i` (no-op on an out-of-range index,
which is unreachable through the API). -/
def setState (e : Env) (i : Nat) (s : State) : Env :=
  { e with fibers :=
      match e.fibers[i]? with
      | some r => e.fibers.set i { r with state := s }
      | none => e.fibers }

/-- Message of the `panic!` fired by `Handle::resume` on a `Panicked` fiber. -/
def rapMsg : String := "Trying to resume a panicked coroutine"

/-- Message of the `panic!` fired by `Handle::resume` on a `Normal` fiber
(the name interpolation is elided). -/
def normalMsg : String := "Fiber is waiting for its child to return, cannot resume"

/-- Message of the failed `assert!` in `Fiber::yield_now`. -/
def assertMsg : String := "assertion failed: state != State::Running"

/-- The body of `Handle::resume` past the early-return `match`, up to and
including `Context::swap`: the target fiber `id` is set `Running`, the
current chain top (`Fiber::current()`) is set `Normal`, and `id` is pushed
onto the chain.  Only reached when `id`'s state is `Suspended` or `Blocked`. -/
def resumeEnter (e : Env) (id : Nat) : Env :=
  match e.chain with
  | [] => e
  | c :: rest =>
    let e1 := setState e id State.Running
    let e2 := setState e1 c State.Normal
    { e2 with chain := id :: c :: rest }

/-- The continuation of `Handle::resume` after `Context::swap` returns: the
fiber that issued the resume — by then again the top of the chain — is set
back to `Running`, and `env.running_state.take()` decides the return value. -/
def resumeFinish (e : Env) : Env × Except Payload Unit :=
  let e1 := match e.chain with
            | c :: _ => setState e c State.Running
            | [] => e
  match e1.runningState with
  | some p => ({ e1 with runningState := none }, Except.error p)
  | none => (e1, Except.ok ())

/-- `Fiber::yield_now`.  Returns the updated environment together with `true`
iff the function swapped away to the new chain top (`false`: it returned to
its caller without switching, either because the `assert!` on
`state != Running` fired before any mutation, or because the chain holds only
the environment root). -/
def Fiber.yield_now (s : State) (e : Env) : Env × Bool :=
  if s = State.Running then (e, false)
  else if e.chain.length = 1 then (e, false)
  else
    match e.chain with
    | [] => (e, false)
    | t :: rest => (setState { e with chain := rest } t s, true)

/-- `Fiber::sched` is `yield_now(Suspended)`. -/
def Fiber.sched (e : Env) : Env × Bool := Fiber.yield_now State.Suspended e

/-- `Fiber::block` is `yield_now(Blocked)`. -/
def Fiber.block (e : Env) : Env × Bool := Fiber.yield_now State.Blocked e

/-- What the `try` in `coroutine_initialize` produced: `Except.ok` for a
normal return of the spawned function, `Except.error p` for a caught unwind
with payload `p`. -/
abbrev CoroResult := Except Payload Unit

/-- `coroutine_initialize` after the `try`: write `env.running_state`
(`None` on a normal return, `Some(err)` on a caught unwind). -/
def coroutine_initialize_slot (e : Env) (r : CoroResult) : Env :=
  match r with
  | Except.ok _ => { e with runningState := none }
  | Except.error p => { e with runningState := some p }

/-- The terminal state `coroutine_initialize` yields with. -/
def coroutine_initialize_state (r : CoroResult) : State :=
  match r with
  | Except.ok _ => State.Finished
  | Except.error _ => State.Panicked

/-- Visible result of one atomic step of the state machine. -/
inductive Outcome where
  /-- a pending `resume` call returned `r` -/
  | ret (r : Except Payload Unit)
  /-- the operation itself fired a `panic!`/`assert!` (message attached) -/
  | panic (msg : String)
  /-- control switched into the resumed fiber -/
  | transferred
  /-- nothing observable -/
  | noop
deriving Repr

/-- A yield that swaps away resumes, in the single-threaded source, the
pending `resume` frame of the new chain top; its continuation
(`resumeFinish`) runs immediately.  This composition is the atomic effect of
one yield as observed at operation boundaries. -/
def yieldStep (s : State) (e : Env) : Env × Outcome :=
  match Fiber.yield_now s e with
  | (e1, true) =>
      match resumeFinish e1 with
      | (e2, r) => (e2, Outcome.ret r)
  | (e1, false) =>
      if s = State.Running then (e1, Outcome.panic assertMsg) else (e1, Outcome.noop)

/-- The tail of `coroutine_initialize`: write the slot, then the first
iteration of `loop { Fiber::yield_now(state) }`. -/
def coroEndStep (e : Env) (r : CoroResult) : Env × Outcome :=
  yieldStep (coroutine_initialize_state r) (coroutine_initialize_slot e r)

/-- The operations of the single-thread state machine.  `sched`/`block` are
`yieldNow Suspended` / `yieldNow Blocked`; `coroEnd r` is the terminal
sequence of `coroutine_initialize` once the spawned function ended with
result `r`. -/
inductive Op where
  | spawn (name : Option String)
  | resume (id : Nat)
  | yieldNow (s : State)
  | coroEnd (r : CoroResult)

/-- One atomic step, together with its visible outcome.  `resume` follows the
dispatch `match` at the head of `Handle::resume`. -/
def stepOut (e : Env) (op : Op) : Env × Outcome :=
  match op with
  | Op.spawn name =>
      ({ e with fibers := e.fibers ++ [{ state := State.Suspended, name := name }] },
       Outcome.noop)
  | Op.resume id =>
      match stateOf e id with
      | some State.Finished => (e, Outcome.ret (Except.ok ()))
      | some State.Running => (e, Outcome.ret (Except.ok ()))
      | some State.Panicked => (e, Outcome.panic rapMsg)
      | some State.Normal => (e, Outcome.panic normalMsg)
      | some State.Suspended => (resumeEnter e id, Outcome.transferred)
      | some State.Blocked => (resumeEnter e id, Outcome.transferred)
      | none => (e, Outcome.noop)
  | Op.yieldNow s => yieldStep s e
  | Op.coroEnd r => coroEndStep e r

/-- The state part of a step. -/
def step (e : Env) (op : Op) : Env := (stepOut e op).1

/-- Run a sequence of operations from a fresh environment. -/
def run (ops : List Op) : Env := ops.foldl step Environment.new

/-- Result of driving `Handle::join`'s loop for a bounded number of
iterations. -/
inductive JoinResult where
  /-- the loop broke and `join` returned `r` -/
  | done (r : Except Payload Unit)
  /-- the `resume` inside the loop fired a `panic!` -/
  | panicStop (msg : String)
  /-- the `resume` inside the loop would switch into the fiber (the fiber
  body's own behaviour is outside this model) -/
  | entered
  /-- the handle references no allocated fiber (unreachable via the API) -/
  | invalidHandle
  /-- the fuel ran out before any iteration returned or switched -/
  | spin
deriving Repr

/-- `Handle::join`, iterated with fuel: `loop { match state { Finished |
Panicked => break, _ => try(resume) } }` then `Ok(())`.  A state on which
`resume` returns `Ok` without any mutation (`Running`, by rule 1 of the
dispatch) just repeats the loop. -/
def joinFuel (e : Env) (id : Nat) : Nat → JoinResult
  | 0 => JoinResult.spin
  | n + 1 =>
      match stateOf e id with
      | some State.Finished => JoinResult.done (Except.ok ())
      | some State.Panicked => JoinResult.done (Except.ok ())
      | some State.Running => joinFuel e id n
      | some State.Normal => JoinResult.panicStop normalMsg
      | some State.Suspended => JoinResult.entered
      | some State.Blocked => JoinResult.entered
      | none => JoinResult.invalidHandle

/-! ### Stack pool (src/stack.rs)

All pool references in a single-pool model are to *the* pool under
consideration, so `Option<StackPool>` inside a `Stack` becomes a `Bool`. -/

/-- `struct Stack`: `buf` is the identity of the memory mapping (`None`
after `take()`), `min_size` the requested size, `pool` whether the stack is
associated with the pool. -/
structure Stack where
  buf : Option Nat
  min_size : Nat
  pool : Bool
deriving DecidableEq, Repr

/-- Placeholder for reads that the source guards by a found index. -/
def dfltStack : Stack := { buf := none, min_size := 0, pool := false }

/-- `StackPool::new`: the cache of a fresh pool. -/
def StackPool.new : List Stack := []

/-- `StackPool::give_stack`: clear the stack's pool association, then cache
it only when fewer than 256 stack segments are cached (otherwise the stack is
dropped and its mapping unmapped). -/
def give_stack (cache : List Stack) (stack : Stack) : List Stack :=
  let stack' := { stack with pool := false }
  if cache.length < 256 then cache ++ [stack'] else cache

/-- `Vec::swap_remove`: replace the element at `idx` by the last element and
pop the last. -/
def swapRemove (l : List Stack) (idx : Nat) : List Stack :=
  (l.set idx (l.getLastD dfltStack)).dropLast

/-- `StackPool::take_stack`: remove the first cached stack whose `min_size`
is at least the request, else map a fresh one (`fresh` names the new
mapping); either way the returned stack is associated with the pool. -/
def take_stack (cache : List Stack) (fresh : Nat) (ms : Nat) :
    List Stack × Stack :=
  match cache.findIdx? (fun s => decide (ms ≤ s.min_size)) with
  | some idx =>
      (swapRemove cache idx, { cache.getD idx dfltStack with pool := true })
  | none =>
      (cache, { buf := some fresh, min_size := ms, pool := true })

/-- `Drop for Stack`: when both the mapping and a pool association are
present, re-give the stack (with its mapping and pool reference) to the
pool via `give_stack`; otherwise nothing (the mapping, if any, is unmapped). -/
def stackDrop (cache : List Stack) (s : Stack) : List Stack :=
  match s.buf, s.pool with
  | some b, true =>
      give_stack cache { buf := some b, min_size := s.min_size, pool := true }
  | _, _ => cache

/-- The operations that touch the pool's cache. -/
inductive PoolOp where
  | give (s : Stack)
  | take (fresh : Nat) (ms : Nat)
  | dropStack (s : Stack)

/-- Effect of a pool operation on the cache. -/
def poolStep (cache : List Stack) (op : PoolOp) : List Stack :=
  match op with
  | PoolOp.give s => give_stack cache s
  | PoolOp.take fresh ms => (take_stack cache fresh ms).1
  | PoolOp.dropStack s => stackDrop cache s

/-! ### Concrete environments (instances for the theorems below) -/

/-- A fresh environment after one `spawn`: the root fiber plus a
`Suspended` fiber 1. -/
def envSpawned : Env := run [Op.spawn none]

/-- After `spawn` and `resume`: fiber 1 is `Running` on top of the chain,
the root is `Normal` below it. -/
def envResumed : Env := run [Op.spawn none, Op.resume 1]

/-- Fiber 1 ran to completion: it is `Finished` and off the chain. -/
def envFinished : Env :=
  run [Op.spawn none, Op.resume 1, Op.coroEnd (Except.ok ())]

/-- Fiber 1 panicked with payload `"boom"`: it is `Panicked` and off the
chain, the payload was taken by the `resume` that ran it. -/
def envPanicked : Env :=
  run [Op.spawn none, Op.resume 1, Op.coroEnd (Except.error "boom")]

/-- `envSpawned` with a payload parked in the slot (to exercise the
`running_state.take()` in the continuation of `resume`). -/
def envParked : Env := { envSpawned with runningState := some "pay" }

/-! ### Basic lemmas about the environment operations -/

theorem setState_chain (e : Env) (i : Nat) (s : State) :
    (setState e i s).chain = e.chain := by
  unfold setState; cases e.fibers[i]? <;> rfl

theorem setState_runningState (e : Env) (i : Nat) (s : State) :
    (setState e i s).runningState = e.runningState := by
  unfold setState; cases e.fibers[i]? <;> rfl

theorem setState_length (e : Env) (i : Nat) (s : State) :
    (setState e i s).fibers.length = e.fibers.length := by
  unfold setState
  cases e.fibers[i]? <;> simp

theorem stateOf_lt {e : Env} {i : Nat} {s : State} (h : stateOf e i = some s) :
    i < e.fibers.length := by
  by_contra hn
  rw [stateOf, List.getElem?_eq_none (Nat.le_of_not_lt hn)] at h
  exact Option.noConfusion h

theorem stateOf_setState_self {e : Env} {i : Nat} (h : i < e.fibers.length)
    (s : State) : stateOf (setState e i s) i = some s := by
  have hg : ∃ r, e.fibers[i]? = some r := by
    rw [List.getElem?_eq_getElem h]; exact ⟨_, rfl⟩
  obtain ⟨r, hr⟩ := hg
  unfold setState stateOf
  rw [hr]
  simp [List.getElem?_set_self h]

theorem stateOf_setState_ne (e : Env) {i j : Nat} (h : i ≠ j) (s : State) :
    stateOf (setState e i s) j = stateOf e j := by
  unfold setState stateOf
  cases e.fibers[i]? <;> simp [List.getElem?_set_ne h]

theorem nameOf_setState (e : Env) (i : Nat) (s : State) (j : Nat) :
    nameOf (setState e i s) j = nameOf e j := by
  unfold setState nameOf
  rcases hr : e.fibers[i]? with _ | r
  · rfl
  · rcases eq_or_ne i j with rfl | hne
    · have hlt : i < e.fibers.length := by
        by_contra hn
        rw [List.getElem?_eq_none (Nat.le_of_not_lt hn)] at hr
        exact Option.noConfusion hr
      simp [List.getElem?_set_self hlt, hr]
    · simp [List.getElem?_set_ne hne]

/-! ### The chain invariant (claim C1) -/

/-- The per-thread invariant of the environment: the chain is non-empty with
the synthetic root fiber (index 0) at its bottom, the top of the chain is
the unique fiber in state `Running`, and every non-top fiber on the chain is
in state `Normal`. -/
structure EnvInv (e : Env) : Prop where
  ne : e.chain ≠ []
  bottom : e.chain.getLast? = some 0
  nodup : e.chain.Nodup
  topRunning : ∀ i, e.chain.head? = some i → stateOf e i = some State.Running
  restNormal : ∀ i ∈ e.chain.tail, stateOf e i = some State.Normal
  uniqueRunning : ∀ i, stateOf e i = some State.Running → e.chain.head? = some i
  rootName : nameOf e 0 = some (some envRootName)

theorem envInv_new : EnvInv Environment.new := by
  refine ⟨by simp [Environment.new], rfl, by simp [Environment.new], ?_, ?_, ?_, rfl⟩
  · intro i hi
    simp only [Environment.new, List.head?] at hi
    cases hi
    rfl
  · intro i hi
    simp [Environment.new] at hi
  · intro i hi
    have hlt : i < 1 := stateOf_lt hi
    interval_cases i
    rfl

theorem envInv_runningState {e : Env} (h : EnvInv e) (x : Option Payload) :
    EnvInv { e with runningState := x } :=
  ⟨h.ne, h.bottom, h.nodup, h.topRunning, h.restNormal, h.uniqueRunning, h.rootName⟩

/-- On the chain, a fiber is `Running` (the top) or `Normal` (below). -/
theorem mem_chain_state {e : Env} (h : EnvInv e) {i : Nat} (hm : i ∈ e.chain) :
    stateOf e i = some State.Running ∨ stateOf e i = some State.Normal := by
  obtain ⟨c, rest, hc⟩ := List.exists_cons_of_ne_nil h.ne
  rw [hc, List.mem_cons] at hm
  rcases hm with rfl | hm
  · exact Or.inl (h.topRunning i (by rw [hc]; rfl))
  · exact Or.inr (h.restNormal i (by rw [hc]; exact hm))

theorem envInv_resumeEnter {e : Env} (h : EnvInv e) {id : Nat} {s : State}
    (hid : stateOf e id = some s)
    (hs : s = State.Suspended ∨ s = State.Blocked) :
    EnvInv (resumeEnter e id) := by
  obtain ⟨c, rest, hc⟩ := List.exists_cons_of_ne_nil h.ne
  have hsR : s ≠ State.Running := by rcases hs with rfl | rfl <;> simp
  have hsN : s ≠ State.Normal := by rcases hs with rfl | rfl <;> simp
  have hcRun : stateOf e c = some State.Running := h.topRunning c (by rw [hc]; rfl)
  have hidlen : id < e.fibers.length := stateOf_lt hid
  have hneic : id ≠ c := by
    intro heq
    rw [heq, hcRun] at hid
    exact hsR (Option.some.inj hid).symm
  have hidnm : id ∉ e.chain := by
    intro hm
    rcases mem_chain_state h hm with hr | hn
    · rw [hid] at hr; exact hsR (Option.some.inj hr)
    · rw [hid] at hn; exact hsN (Option.some.inj hn)
  have hre : resumeEnter e id =
      { setState (setState e id State.Running) c State.Normal with
        chain := id :: c :: rest } := by
    unfold resumeEnter
    rw [hc]
  set e2 := setState (setState e id State.Running) c State.Normal with he2
  have hlen1 : (setState e id State.Running).fibers.length = e.fibers.length :=
    setState_length ..
  have hSid : stateOf e2 id = some State.Running := by
    rw [he2, stateOf_setState_ne _ (Ne.symm hneic),
      stateOf_setState_self hidlen]
  have hSc : stateOf e2 c = some State.Normal := by
    rw [he2, stateOf_setState_self (by rw [hlen1]; exact stateOf_lt hcRun)]
  have hSother : ∀ j, j ≠ id → j ≠ c → stateOf e2 j = stateOf e j := by
    intro j hj1 hj2
    rw [he2, stateOf_setState_ne _ (Ne.symm hj2), stateOf_setState_ne _ (Ne.symm hj1)]
  rw [hre]
  refine ⟨by simp, ?_, ?_, ?_, ?_, ?_, ?_⟩
  · rw [List.getLast?_cons_cons]
    have := h.bottom
    rw [hc] at this
    exact this
  · rw [List.nodup_cons]
    exact ⟨by rw [← hc]; exact hidnm, by rw [← hc]; exact h.nodup⟩
  · intro i hi
    cases hi
    exact hSid
  · intro i hi
    simp only [List.tail_cons, List.mem_cons] at hi
    rcases hi with rfl | hi
    · exact hSc
    · have hin : i ∈ e.chain.tail := by rw [hc]; exact hi
      have hiid : i ≠ id := by
        intro heq; subst heq
        exact hidnm (by rw [hc]; exact List.mem_cons_of_mem _ hi)
      have hic : i ≠ c := by
        intro heq; subst heq
        have := h.nodup
        rw [hc, List.nodup_cons] at this
        exact this.1 hi
      exact (hSother i hiid hic).trans (h.restNormal i hin)
  · intro i hi
    have hi' : stateOf e2 i = some State.Running := hi
    rcases eq_or_ne i id with rfl | hiid
    · rfl
    · exfalso
      rcases eq_or_ne i c with rfl | hic
      · rw [hSc] at hi'
        exact State.noConfusion (Option.some.inj hi')
      · rw [hSother i hiid hic] at hi'
        have hh := h.uniqueRunning i hi'
        rw [hc] at hh
        exact hic (Option.some.inj hh).symm
  · show nameOf e2 0 = some (some envRootName)
    rw [he2, nameOf_setState, nameOf_setState]
    exact h.rootName

theorem yield_now_len_one {e : Env} {s : State} (hs : s ≠ State.Running)
    (h1 : e.chain.length = 1) : Fiber.yield_now s e = (e, false) := by
  unfold Fiber.yield_now
  rw [if_neg hs, if_pos h1]

theorem yield_now_cons {e : Env} {s : State} (hs : s ≠ State.Running)
    {t u : Nat} {rest : List Nat} (hc : e.chain = t :: u :: rest) :
    Fiber.yield_now s e = (setState { e with chain := u :: rest } t s, true) := by
  unfold Fiber.yield_now
  rw [if_neg hs, if_neg (by rw [hc]; simp), hc]

theorem resumeFinish_fst (e : Env) :
    (resumeFinish e).1 =
      { (match e.chain with
         | c :: _ => setState e c State.Running
         | [] => e) with runningState := none } := by
  rcases e with ⟨fs, ch, rs⟩
  rcases ch with _ | ⟨c, rest⟩ <;> rcases rs with _ | p <;> rfl

theorem resumeFinish_snd (e : Env) :
    (resumeFinish e).2 =
      match e.runningState with
      | some p => Except.error p
      | none => Except.ok () := by
  rcases e with ⟨fs, ch, rs⟩
  rcases ch with _ | ⟨c, rest⟩ <;> rcases rs with _ | p <;> rfl

theorem yieldStep_cons {e : Env} {s : State} (hs : s ≠ State.Running)
    {t u : Nat} {rest : List Nat} (hc : e.chain = t :: u :: rest) :
    yieldStep s e =
      ((resumeFinish (setState { e with chain := u :: rest } t s)).1,
       Outcome.ret (resumeFinish (setState { e with chain := u :: rest } t s)).2) := by
  rw [yieldStep, yield_now_cons hs hc]

theorem envInv_yieldStep {e : Env} (h : EnvInv e) {s : State}
    (hs : s ≠ State.Running) : EnvInv (yieldStep s e).1 := by
  rcases hc : e.chain with _ | ⟨t, rest⟩
  · exact absurd hc h.ne
  rcases rest with _ | ⟨u, rest'⟩
  · have h1 : yieldStep s e = (e, Outcome.noop) := by
      simp [yieldStep, yield_now_len_one hs (by rw [hc]; rfl), hs]
    rw [h1]
    exact h
  rw [yieldStep_cons hs hc]
  set e1 := setState { e with chain := u :: rest' } t s with he1
  have hce1 : e1.chain = u :: rest' := by rw [he1, setState_chain]
  have htRun : stateOf e t = some State.Running := h.topRunning t (by rw [hc]; rfl)
  have huN : stateOf e u = some State.Normal :=
    h.restNormal u (by rw [hc]; exact List.mem_cons_self ..)
  have htlen : t < e.fibers.length := stateOf_lt htRun
  have hulen : u < e.fibers.length := stateOf_lt huN
  have htu : t ≠ u := by
    intro heq
    rw [heq, huN] at htRun
    exact State.noConfusion (Option.some.inj htRun)
  have hnd : (t :: u :: rest').Nodup := by rw [← hc]; exact h.nodup
  have htnm : t ∉ u :: rest' := (List.nodup_cons.mp hnd).1
  have hund : (u :: rest').Nodup := (List.nodup_cons.mp hnd).2
  -- states after the two writes
  have hS1t : stateOf e1 t = some s := by
    rw [he1]
    exact stateOf_setState_self htlen s
  have hS1o : ∀ j, j ≠ t → stateOf e1 j = stateOf e j := by
    intro j hj
    rw [he1, stateOf_setState_ne _ (Ne.symm hj)]
    rfl
  set E := setState e1 u State.Running with hE
  have hSEu : stateOf E u = some State.Running := by
    rw [hE]
    exact stateOf_setState_self (by rw [he1, setState_length]; exact hulen) State.Running
  have hSEt : stateOf E t = some s := by
    rw [hE, stateOf_setState_ne _ (Ne.symm htu)]
    exact hS1t
  have hSEo : ∀ j, j ≠ t → j ≠ u → stateOf E j = stateOf e j := by
    intro j hj1 hj2
    rw [hE, stateOf_setState_ne _ (Ne.symm hj2)]
    exact hS1o j hj1
  have hfst : (resumeFinish e1).1 = { E with runningState := none } := by
    rw [resumeFinish_fst, hce1]
  rw [hfst]
  have hcE : E.chain = u :: rest' := by rw [hE, setState_chain]; exact hce1
  refine ⟨?_, ?_, ?_, ?_, ?_, ?_, ?_⟩
  · show E.chain ≠ []
    rw [hcE]
    simp
  · show E.chain.getLast? = some 0
    rw [hcE]
    have hb := h.bottom
    rw [hc, List.getLast?_cons_cons] at hb
    exact hb
  · show E.chain.Nodup
    rw [hcE]
    exact hund
  · intro i hi
    have hi' : E.chain.head? = some i := hi
    rw [hcE] at hi'
    cases hi'
    exact hSEu
  · intro i hi
    have hi' : i ∈ E.chain.tail := hi
    rw [hcE] at hi'
    simp only [List.tail_cons] at hi'
    have hiu : i ≠ u := by
      intro heq; subst heq
      exact (List.nodup_cons.mp hund).1 hi'
    have hit : i ≠ t := by
      intro heq; subst heq
      exact htnm (List.mem_cons_of_mem _ hi')
    have := hSEo i hit hiu
    show stateOf E i = some State.Normal
    rw [this]
    exact h.restNormal i (by rw [hc]; exact List.mem_cons_of_mem _ hi')
  · intro i hi
    have hi' : stateOf E i = some State.Running := hi
    show E.chain.head? = some i
    rw [hcE]
    rcases eq_or_ne i u with rfl | hiu
    · rfl
    exfalso
    rcases eq_or_ne i t with rfl | hit
    · rw [hSEt] at hi'
      exact hs (Option.some.inj hi')
    · rw [hSEo i hit hiu] at hi'
      have hh := h.uniqueRunning i hi'
      rw [hc] at hh
      exact hit (Option.some.inj hh).symm
  · show nameOf E 0 = some (some envRootName)
    rw [hE, nameOf_setState, he1, nameOf_setState]
    exact h.rootName

theorem stateOf_push_lt {e : Env} {r : FiberRec} {i : Nat}
    (h : i < e.fibers.length) :
    stateOf { e with fibers := e.fibers ++ [r] } i = stateOf e i := by
  simp [stateOf, List.getElem?_append, h]

theorem stateOf_push_ge {e : Env} {r : FiberRec} {i : Nat}
    (h : e.fibers.length ≤ i) :
    stateOf { e with fibers := e.fibers ++ [r] } i =
      if i = e.fibers.length then some r.state else none := by
  rcases eq_or_ne i e.fibers.length with rfl | hne
  · simp [stateOf, List.getElem?_append_right (le_refl _)]
  · rw [if_neg hne]
    rw [stateOf, List.getElem?_append_right h, List.getElem?_eq_none]
    · rfl
    · simp
      omega

theorem nameOf_lt {e : Env} {i : Nat} {x : Option String}
    (h : nameOf e i = some x) : i < e.fibers.length := by
  by_contra hn
  rw [nameOf, List.getElem?_eq_none (Nat.le_of_not_lt hn)] at h
  exact Option.noConfusion h

theorem nameOf_push_lt {e : Env} {r : FiberRec} {i : Nat}
    (h : i < e.fibers.length) :
    nameOf { e with fibers := e.fibers ++ [r] } i = nameOf e i := by
  simp [nameOf, List.getElem?_append, h]

theorem envInv_step {e : Env} (h : EnvInv e) (op : Op) : EnvInv (step e op) := by
  cases op with
  | spawn name =>
      show EnvInv { e with fibers := e.fibers ++ [{ state := State.Suspended, name := name }] }
      have hroot : 0 < e.fibers.length := nameOf_lt h.rootName
      refine ⟨h.ne, h.bottom, h.nodup, ?_, ?_, ?_, ?_⟩
      · intro i hi
        have hR := h.topRunning i hi
        rw [stateOf_push_lt (stateOf_lt hR)]
        exact hR
      · intro i hi
        have hN := h.restNormal i hi
        rw [stateOf_push_lt (stateOf_lt hN)]
        exact hN
      · intro i hi
        rcases lt_or_ge i e.fibers.length with hlt | hge
        · rw [stateOf_push_lt hlt] at hi
          exact h.uniqueRunning i hi
        · rw [stateOf_push_ge hge] at hi
          rcases eq_or_ne i e.fibers.length with rfl | hne
          · rw [if_pos rfl] at hi
            exact absurd (Option.some.inj hi) (by simp)
          · rw [if_neg hne] at hi
            exact Option.noConfusion hi
      · rw [nameOf_push_lt hroot]
        exact h.rootName
  | resume id =>
      show EnvInv (stepOut e (Op.resume id)).1
      rcases hst : stateOf e id with _ | st
      · simp only [stepOut, hst]
        exact h
      · cases st <;> simp only [stepOut, hst]
        · exact h
        · exact envInv_resumeEnter h hst (Or.inl rfl)
        · exact envInv_resumeEnter h hst (Or.inr rfl)
        · exact h
        · exact h
        · exact h
  | yieldNow s =>
      rcases eq_or_ne s State.Running with rfl | hs
      · show EnvInv (yieldStep State.Running e).1
        have hr : yieldStep State.Running e = (e, Outcome.panic assertMsg) := rfl
        rw [hr]
        exact h
      · exact envInv_yieldStep h hs
  | coroEnd r =>
      show EnvInv (yieldStep (coroutine_initialize_state r) (coroutine_initialize_slot e r)).1
      have h1 : EnvInv (coroutine_initialize_slot e r) := by
        cases r with
        | ok u => exact envInv_runningState h none
        | error p => exact envInv_runningState h (some p)
      have h2 : coroutine_initialize_state r ≠ State.Running := by
        cases r <;> simp [coroutine_initialize_state]
      exact envInv_yieldStep h1 h2

theorem envInv_foldl {e : Env} (h : EnvInv e) (ops : List Op) :
    EnvInv (ops.foldl step e) := by
  induction ops generalizing e with
  | nil => exact h
  | cons op ops ih => exact ih (envInv_step h op)

theorem envInv_run (ops : List Op) : EnvInv (run ops) :=
  envInv_foldl envInv_new ops

/-- A yield that swaps away pops the top `t` of the chain and records state
`s` on it; the new top `u` is set `Running` by the pending resume frame. -/
theorem yieldPop_state {e : Env} {s : State} (hs : s ≠ State.Running)
    {t u : Nat} {rest : List Nat} (hc : e.chain = t :: u :: rest)
    (htlen : t < e.fibers.length) (htu : t ≠ u) :
    stateOf (yieldStep s e).1 t = some s ∧
    (yieldStep s e).1.chain = u :: rest := by
  rw [yieldStep_cons hs hc]
  set e1 := setState { e with chain := u :: rest } t s with he1
  have hce1 : e1.chain = u :: rest := by rw [he1, setState_chain]
  have h1 : (resumeFinish e1).1 =
      { setState e1 u State.Running with runningState := none } := by
    rw [resumeFinish_fst, hce1]
  rw [h1]
  constructor
  · show stateOf (setState e1 u State.Running) t = some s
    rw [stateOf_setState_ne _ (Ne.symm htu), he1]
    exact stateOf_setState_self htlen s
  · show (setState e1 u State.Running).chain = u :: rest
    rw [setState_chain, hce1]

/-- After a swapping yield, the panic slot has been taken by the resumed
frame. -/
theorem yieldStep_runningState {e : Env} {s : State} (hs : s ≠ State.Running)
    {t u : Nat} {rest : List Nat} (hc : e.chain = t :: u :: rest) :
    (yieldStep s e).1.runningState = none := by
  rw [yieldStep_cons hs hc, resumeFinish_fst]

/-- The value a swapping yield hands back to the pending resume: the error
with the parked payload, if any, else `Ok`. -/
theorem yieldStep_snd {e : Env} {s : State} (hs : s ≠ State.Running)
    {t u : Nat} {rest : List Nat} (hc : e.chain = t :: u :: rest) :
    (yieldStep s e).2 =
      Outcome.ret (match e.runningState with
        | some p => Except.error p
        | none => Except.ok ()) := by
  rw [yieldStep_cons hs hc, resumeFinish_snd]
  rfl

/-! ### Claims -/

/-- **C1.** For every sequence of `spawn`/`resume`/`yield_now`/`sched`/
`block` operations on a single thread (`sched`/`block` are `yield_now` with
`Suspended`/`Blocked`; the terminal steps of `coroutine_initialize` are
covered as well), the environment's chain is non-empty with the synthetic
root fiber (index 0, named `<Environment Root Fiber>`) at the bottom, the
fiber at the top of the chain is the only fiber on the thread in state
`Running`, and every other fiber on the chain is in state `Normal`. -/
theorem chain_invariant (ops : List Op) :
    (run ops).chain ≠ [] ∧
    (run ops).chain.getLast? = some 0 ∧
    nameOf (run ops) 0 = some (some envRootName) ∧
    (∀ i, (run ops).chain.head? = some i →
      stateOf (run ops) i = some State.Running) ∧
    (∀ i, stateOf (run ops) i = some State.Running →
      (run ops).chain.head? = some i) ∧
    (∀ i ∈ (run ops).chain.tail, stateOf (run ops) i = some State.Normal) :=
  let h := envInv_run ops
  ⟨h.ne, h.bottom, h.rootName, h.topRunning, h.uniqueRunning, h.restNormal⟩

/-- **C7.** `resume` on a handle whose state is `Running` — in particular a
fiber resuming itself through `current()` — returns `Ok` immediately, with
no context switch and no state change; the same holds for state `Finished`
(rule 1 of `resume`). -/
theorem resume_running_finished_noop (e : Env) (id : Nat)
    (h : stateOf e id = some State.Running ∨
         stateOf e id = some State.Finished) :
    stepOut e (Op.resume id) = (e, Outcome.ret (Except.ok ())) := by
  rcases h with h | h <;> simp [stepOut, h]

/-- Witness for C7: the root fiber (the top of a fresh chain, as returned by
`current()`) resuming itself. -/
theorem resume_running_finished_noop_witness :
    stepOut Environment.new (Op.resume 0) =
      (Environment.new, Outcome.ret (Except.ok ())) :=
  resume_running_finished_noop Environment.new 0 (Or.inl rfl)

/-- **C4 (counterexample).** The claim "for every handle whose state is
terminal (`Finished` or `Panicked`), `resume` is a no-op returning success"
fails at a `Panicked` handle: `Handle::resume` fires the resume-after-panic
`panic!` instead of returning `Ok`. -/
theorem resume_terminal_cex :
    stateOf envPanicked 1 = some State.Panicked ∧
    (stepOut envPanicked (Op.resume 1)).2 = Outcome.panic rapMsg ∧
    (stepOut envPanicked (Op.resume 1)).2 ≠ Outcome.ret (Except.ok ()) := by
  refine ⟨rfl, rfl, ?_⟩
  intro hcontra
  have h : Outcome.panic rapMsg = Outcome.ret (Except.ok ()) := hcontra
  exact Outcome.noConfusion h

/-- **C4 (amended).** In the direct policy, `resume` on a `Finished` handle
is a no-op returning success; `resume` on a `Panicked` handle is rejected
with the resume-after-panic `panic!`, leaving the fiber's state and the
thread's chain unchanged in both cases. -/
theorem resume_terminal_spec (e : Env) (id : Nat) :
    (stateOf e id = some State.Finished →
      stepOut e (Op.resume id) = (e, Outcome.ret (Except.ok ()))) ∧
    (stateOf e id = some State.Panicked →
      stepOut e (Op.resume id) = (e, Outcome.panic rapMsg)) := by
  constructor <;> intro h <;> simp [stepOut, h]

/-- Witness for the amended C4: a `Finished` fiber and a `Panicked` fiber,
both reached by running the machine from scratch. -/
theorem resume_terminal_spec_witness :
    stepOut envFinished (Op.resume 1) =
      (envFinished, Outcome.ret (Except.ok ())) ∧
    stepOut envPanicked (Op.resume 1) =
      (envPanicked, Outcome.panic rapMsg) :=
  ⟨(resume_terminal_spec envFinished 1).1 rfl,
   (resume_terminal_spec envPanicked 1).2 rfl⟩

/-- **C6.** `yield_now(new_state)` asserts that `new_state` is not `Running`
(the failed assert fires before any mutation); if the chain contains only
one fiber — the root — it returns without modifying any state (yielding from
the root, e.g. `sched()` on the host thread, is a silent no-op); otherwise
it pops the top of the chain, sets that fiber's state to `new_state`
(leaving every other fiber and the panic slot untouched), and swaps context
into the new chain top. -/
theorem yield_now_spec (s : State) (e : Env) (t : Nat) (rest : List Nat) :
    (Fiber.yield_now State.Running e = (e, false) ∧
       yieldStep State.Running e = (e, Outcome.panic assertMsg)) ∧
    (s ≠ State.Running → e.chain.length = 1 → Fiber.yield_now s e = (e, false)) ∧
    (s ≠ State.Running → e.chain = t :: rest → rest ≠ [] →
      (Fiber.yield_now s e).2 = true ∧
      (Fiber.yield_now s e).1.chain = rest ∧
      (t < e.fibers.length → stateOf (Fiber.yield_now s e).1 t = some s) ∧
      (∀ j, j ≠ t → stateOf (Fiber.yield_now s e).1 j = stateOf e j) ∧
      (Fiber.yield_now s e).1.runningState = e.runningState) := by
  refine ⟨⟨rfl, rfl⟩, ?_, ?_⟩
  · intro hs h1
    exact yield_now_len_one hs h1
  · intro hs hc hrest
    obtain ⟨u, rest', rfl⟩ := List.exists_cons_of_ne_nil hrest
    rw [yield_now_cons hs hc]
    refine ⟨rfl, by rw [setState_chain], ?_, ?_, by rw [setState_runningState]⟩
    · intro hlt
      exact stateOf_setState_self hlt s
    · intro j hj
      rw [stateOf_setState_ne _ (Ne.symm hj)]
      rfl

/-- Witness for C6: yielding `Suspended` from fiber 1 running on top of the
root pops it and suspends it; yielding on the root-only chain does nothing;
the assert case leaves the environment unchanged. -/
theorem yield_now_spec_witness :
    Fiber.yield_now State.Running envResumed = (envResumed, false) ∧
    Fiber.yield_now State.Suspended Environment.new = (Environment.new, false) ∧
    (Fiber.yield_now State.Suspended envResumed).2 = true ∧
    (Fiber.yield_now State.Suspended envResumed).1.chain = [0] ∧
    stateOf (Fiber.yield_now State.Suspended envResumed).1 1 =
      some State.Suspended := by
  have h1 := (yield_now_spec State.Suspended envResumed 1 [0]).1.1
  have h2 := (yield_now_spec State.Suspended Environment.new 1 [0]).2.1
    (by decide) rfl
  have h3 := (yield_now_spec State.Suspended envResumed 1 [0]).2.2
    (by decide) rfl (by decide)
  exact ⟨h1, h2, h3.1, h3.2.1, h3.2.2.1 (by decide)⟩

/-- **C2.** `resume` on a handle in state `Suspended` or `Blocked` sets the
current chain top `cur` to `Normal` and the target to `Running`, pushes the
handle onto the chain, and swaps into the target's saved context (only the
two fibers' states change, the panic slot is untouched); when the swap
returns — the resuming fiber is then again the chain top — `cur` is set
back to `Running`, and `resume` returns an error carrying the in-flight
panic payload if one was stored (taking and clearing the slot), otherwise
`Ok`. -/
theorem resume_suspended_spec (e f : Env) (id c : Nat) (rest : List Nat)
    (hid : stateOf e id = some State.Suspended ∨
           stateOf e id = some State.Blocked)
    (hc : e.chain = c :: rest)
    (hcR : stateOf e c = some State.Running)
    (hcf : c < f.fibers.length)
    (hf : f.chain = c :: rest) :
    ((stepOut e (Op.resume id)).2 = Outcome.transferred ∧
     (step e (Op.resume id)).chain = id :: c :: rest ∧
     stateOf (step e (Op.resume id)) id = some State.Running ∧
     stateOf (step e (Op.resume id)) c = some State.Normal ∧
     (∀ j, j ≠ id → j ≠ c →
       stateOf (step e (Op.resume id)) j = stateOf e j) ∧
     (step e (Op.resume id)).runningState = e.runningState) ∧
    (stateOf (resumeFinish f).1 c = some State.Running ∧
     (resumeFinish f).1.runningState = none ∧
     (∀ p, f.runningState = some p → (resumeFinish f).2 = Except.error p) ∧
     (f.runningState = none → (resumeFinish f).2 = Except.ok ())) := by
  have hne : id ≠ c := by
    intro heq
    rw [heq, hcR] at hid
    rcases hid with h | h <;> exact State.noConfusion (Option.some.inj h)
  have hidlen : id < e.fibers.length := by
    rcases hid with h | h <;> exact stateOf_lt h
  have hclen : c < e.fibers.length := stateOf_lt hcR
  have hstep : step e (Op.resume id) = resumeEnter e id := by
    rcases hid with h | h <;> simp [step, stepOut, h]
  have hout : (stepOut e (Op.resume id)).2 = Outcome.transferred := by
    rcases hid with h | h <;> simp [stepOut, h]
  have hre : resumeEnter e id =
      { setState (setState e id State.Running) c State.Normal with
        chain := id :: c :: rest } := by
    unfold resumeEnter
    rw [hc]
  set e2 := setState (setState e id State.Running) c State.Normal with he2
  constructor
  · refine ⟨hout, ?_, ?_, ?_, ?_, ?_⟩
    · rw [hstep, hre]
    · rw [hstep, hre]
      show stateOf e2 id = some State.Running
      rw [he2, stateOf_setState_ne _ (Ne.symm hne)]
      exact stateOf_setState_self hidlen _
    · rw [hstep, hre]
      show stateOf e2 c = some State.Normal
      rw [he2]
      exact stateOf_setState_self (by rw [setState_length]; exact hclen) _
    · intro j hj1 hj2
      rw [hstep, hre]
      show stateOf e2 j = stateOf e j
      rw [he2, stateOf_setState_ne _ (Ne.symm hj2),
        stateOf_setState_ne _ (Ne.symm hj1)]
    · rw [hstep, hre]
      show e2.runningState = e.runningState
      rw [he2, setState_runningState, setState_runningState]
  · have hfst : (resumeFinish f).1 =
        { setState f c State.Running with runningState := none } := by
      rw [resumeFinish_fst, hf]
    refine ⟨?_, ?_, ?_, ?_⟩
    · rw [hfst]
      show stateOf (setState f c State.Running) c = some State.Running
      exact stateOf_setState_self hcf _
    · rw [hfst]
    · intro p hp
      rw [resumeFinish_snd, hp]
    · intro hp
      rw [resumeFinish_snd, hp]

/-- Witness for C2: resume the `Suspended` fiber 1 from the root of a fresh
chain; the continuation is exercised on an environment with a parked
payload. -/
theorem resume_suspended_spec_witness :
    (stepOut envSpawned (Op.resume 1)).2 = Outcome.transferred ∧
    (step envSpawned (Op.resume 1)).chain = [1, 0] ∧
    stateOf (step envSpawned (Op.resume 1)) 1 = some State.Running ∧
    stateOf (step envSpawned (Op.resume 1)) 0 = some State.Normal ∧
    stateOf (resumeFinish envParked).1 0 = some State.Running ∧
    (resumeFinish envParked).1.runningState = none ∧
    (resumeFinish envParked).2 = Except.error "pay" := by
  have h := resume_suspended_spec envSpawned envParked 1 0 [] (Or.inl rfl)
    rfl rfl (by decide) rfl
  exact ⟨h.1.1, h.1.2.1, h.1.2.2.1, h.1.2.2.2.1, h.2.1, h.2.2.1,
    h.2.2.2.1 "pay" rfl⟩

/-- **C3.** For a fiber whose function panicked, exactly one `resume`
returns the error carrying the payload — the `resume` that was running the
fiber: the terminal step of `coroutine_initialize` stores the payload,
yields with state `Panicked`, the pending `resume` returns `Err(payload)`
and the slot is cleared (the payload is delivered once); every subsequent
`resume` on the same handle, now in state `Panicked`, fires the
resume-after-panic `panic!` without entering the fiber and without touching
any state. -/
theorem panic_delivered_once (e : Env) (p : Payload) (t u : Nat)
    (rest : List Nat) (hc : e.chain = t :: u :: rest)
    (htlen : t < e.fibers.length) (htu : t ≠ u) :
    ((stepOut e (Op.coroEnd (Except.error p))).2 =
       Outcome.ret (Except.error p) ∧
     stateOf (step e (Op.coroEnd (Except.error p))) t = some State.Panicked ∧
     (step e (Op.coroEnd (Except.error p))).runningState = none) ∧
    (∀ f id, stateOf f id = some State.Panicked →
       stepOut f (Op.resume id) = (f, Outcome.panic rapMsg)) := by
  have hs : State.Panicked ≠ State.Running := by decide
  set e' := coroutine_initialize_slot e (Except.error p) with he'
  have hc' : e'.chain = t :: u :: rest := hc
  have hstep : stepOut e (Op.coroEnd (Except.error p)) =
      yieldStep State.Panicked e' := rfl
  have htlen' : t < e'.fibers.length := htlen
  constructor
  · refine ⟨?_, ?_, ?_⟩
    · rw [hstep, yieldStep_snd hs hc', he']
      rfl
    · show stateOf (yieldStep State.Panicked e').1 t = some State.Panicked
      exact (yieldPop_state hs hc' htlen' htu).1
    · show (yieldStep State.Panicked e').1.runningState = none
      exact yieldStep_runningState hs hc'
  · intro f id h
    simp [stepOut, h]

/-- Witness for C3: fiber 1, running on top of the root, panics with
`"boom"`; the pending resume gets the error; a later `resume` on the
`Panicked` handle is rejected. -/
theorem panic_delivered_once_witness :
    (stepOut envResumed (Op.coroEnd (Except.error "boom"))).2 =
      Outcome.ret (Except.error "boom") ∧
    stateOf (step envResumed (Op.coroEnd (Except.error "boom"))) 1 =
      some State.Panicked ∧
    (step envResumed (Op.coroEnd (Except.error "boom"))).runningState = none ∧
    stepOut envPanicked (Op.resume 1) =
      (envPanicked, Outcome.panic rapMsg) := by
  have h := panic_delivered_once envResumed "boom" 1 0 [] rfl
    (by decide) (by decide)
  exact ⟨h.1.1, h.1.2.1, h.1.2.2, h.2 envPanicked 1 rfl⟩

/-- **C5.** `coroutine_initialize` runs the spawned function under
unwind-catching: on a normal return it clears the in-flight panic slot and
the fiber ends in state `Finished`; on a caught unwind it stores the payload
in the slot and the fiber ends in state `Panicked`; afterwards it loops
forever on `yield_now` with that terminal state, so any further swap back
into the fiber immediately re-yields (one loop iteration pops the fiber at
once, keeping its terminal state) without re-running the function. -/
theorem coroutine_initialize_spec (e : Env) (p : Payload) (r : CoroResult)
    (t u : Nat) (rest : List Nat) (hc : e.chain = t :: u :: rest)
    (htlen : t < e.fibers.length) (htu : t ≠ u) :
    ((coroutine_initialize_slot e (Except.ok ())).runningState = none ∧
     (coroutine_initialize_slot e (Except.error p)).runningState = some p ∧
     coroutine_initialize_state (Except.ok ()) = State.Finished ∧
     coroutine_initialize_state (Except.error p) = State.Panicked) ∧
    stateOf (step e (Op.coroEnd r)) t = some (coroutine_initialize_state r) ∧
    (∀ f u' rest', f.chain = t :: u' :: rest' → t < f.fibers.length →
       t ≠ u' →
       stateOf (step f (Op.yieldNow (coroutine_initialize_state r))) t =
         some (coroutine_initialize_state r) ∧
       (step f (Op.yieldNow (coroutine_initialize_state r))).chain =
         u' :: rest') := by
  have hsr : coroutine_initialize_state r ≠ State.Running := by
    cases r <;> simp [coroutine_initialize_state]
  refine ⟨⟨rfl, rfl, rfl, rfl⟩, ?_, ?_⟩
  · cases r with
    | ok v =>
        have hc' : (coroutine_initialize_slot e (Except.ok v)).chain =
            t :: u :: rest := hc
        exact (yieldPop_state (show State.Finished ≠ State.Running by decide)
          hc' htlen htu).1
    | error q =>
        have hc' : (coroutine_initialize_slot e (Except.error q)).chain =
            t :: u :: rest := hc
        exact (yieldPop_state (show State.Panicked ≠ State.Running by decide)
          hc' htlen htu).1
  · intro f u' rest' hcf htlf htu'
    have h := yieldPop_state hsr hcf htlf htu'
    exact ⟨h.1, h.2⟩

/-- Witness for C5: fiber 1 finishing normally on top of the root, and the
re-entry loop exercised on a chain where fiber 1 sits on top again. -/
theorem coroutine_initialize_spec_witness :
    (coroutine_initialize_slot envResumed (Except.ok ())).runningState =
      none ∧
    (coroutine_initialize_slot envResumed
      (Except.error "boom")).runningState = some "boom" ∧
    stateOf (step envResumed (Op.coroEnd (Except.ok ()))) 1 =
      some State.Finished ∧
    stateOf (step envResumed (Op.yieldNow State.Finished)) 1 =
      some State.Finished ∧
    (step envResumed (Op.yieldNow State.Finished)).chain = [0] := by
  have h := coroutine_initialize_spec envResumed "boom" (Except.ok ()) 1 0 []
    rfl (by decide) (by decide)
  have h2 := h.2.2 envResumed 0 [] rfl (by decide) (by decide)
  exact ⟨h.1.1, h.1.2.1, h.2.1, h2.1, h2.2⟩

/-- **C9.** `join` on a handle whose state is already `Panicked` (for
example a second `join` after an earlier `resume`/`join` consumed the panic
error) returns `Ok(())` immediately: the loop breaks before any `resume`
and no error is reported — even though a direct `resume` on the same handle
is rejected — so the panic payload is delivered at most once, only through
the `resume` that actually ran the fiber. -/
theorem join_panicked_ok (e : Env) (id : Nat) (n : Nat)
    (h : stateOf e id = some State.Panicked) :
    joinFuel e id (n + 1) = JoinResult.done (Except.ok ()) ∧
    stepOut e (Op.resume id) = (e, Outcome.panic rapMsg) := by
  constructor
  · simp [joinFuel, h]
  · simp [stepOut, h]

/-- Witness for C9: a second `join` on the fiber that panicked with
`"boom"`. -/
theorem join_panicked_ok_witness :
    joinFuel envPanicked 1 1 = JoinResult.done (Except.ok ()) ∧
    stepOut envPanicked (Op.resume 1) =
      (envPanicked, Outcome.panic rapMsg) :=
  join_panicked_ok envPanicked 1 0 rfl

/-- **C10.** `join` on a handle whose state is `Running` — for example a
fiber calling `join` on its own handle obtained from `current()` — never
terminates: each iteration's `resume` returns `Ok` immediately without
changing the state (rule 1), so the non-terminal loop in `join` spins for
every fuel bound. -/
theorem join_running_spins (e : Env) (id : Nat)
    (h : stateOf e id = some State.Running) :
    (∀ n, joinFuel e id n = JoinResult.spin) ∧
    stepOut e (Op.resume id) = (e, Outcome.ret (Except.ok ())) := by
  constructor
  · intro n
    induction n with
    | zero => rfl
    | succ n ih => simp [joinFuel, h, ih]
  · simp [stepOut, h]

/-- Witness for C10: the root fiber joining its own handle (the handle
`current()` returns on a fresh chain) spins for any fuel, e.g. 5. -/
theorem join_running_spins_witness :
    joinFuel Environment.new 0 5 = JoinResult.spin ∧
    stepOut Environment.new (Op.resume 0) =
      (Environment.new, Outcome.ret (Except.ok ())) :=
  ⟨(join_running_spins Environment.new 0 rfl).1 5,
   (join_running_spins Environment.new 0 rfl).2⟩

/-- One pool operation keeps the cache within the cap. -/
theorem poolStep_cap {cache : List Stack} (h : cache.length ≤ 256)
    (op : PoolOp) : (poolStep cache op).length ≤ 256 := by
  cases op with
  | give s =>
      show (give_stack cache s).length ≤ 256
      unfold give_stack
      by_cases h1 : cache.length < 256
      · rw [if_pos h1]
        simp
        omega
      · rw [if_neg h1]
        exact h
  | take fresh ms =>
      show (take_stack cache fresh ms).1.length ≤ 256
      unfold take_stack
      rcases hidx : cache.findIdx? (fun s => decide (ms ≤ s.min_size)) with
        _ | idx
      · rw [hidx]
        exact h
      · rw [hidx]
        show (swapRemove cache idx).length ≤ 256
        unfold swapRemove
        rw [List.length_dropLast, List.length_set]
        omega
  | dropStack s =>
      show (stackDrop cache s).length ≤ 256
      unfold stackDrop
      rcases s.buf with _ | b <;> rcases hp : s.pool with _ | _
      · exact h
      · exact h
      · exact h
      · show (give_stack cache _).length ≤ 256
        unfold give_stack
        by_cases h1 : cache.length < 256
        · rw [if_pos h1]
          simp
          omega
        · rw [if_neg h1]
          exact h

/-- **C8.** The number of stacks cached in a stack pool never exceeds 256:
along any sequence of `take_stack`, explicit `give_stack`, and implicit
`Stack` drops (which re-give an associated stack through `give_stack`),
starting from a fresh pool, the cache holds at most 256 entries —
`give_stack` pushes only when the cache currently holds fewer than 256 and
otherwise drops the stack. -/
theorem stack_pool_cap (ops : List PoolOp) :
    (ops.foldl poolStep StackPool.new).length ≤ 256 := by
  have hgen : ∀ (l : List PoolOp) (cache : List Stack), cache.length ≤ 256 →
      (l.foldl poolStep cache).length ≤ 256 := by
    intro l
    induction l with
    | nil => intro cache h; exact h
    | cons op l ih => intro cache h; exact ih _ (poolStep_cap h op)
  exact hgen ops StackPool.new (by simp [StackPool.new])

end Bran
